import Mathlib

/-!
# Verification of the training-dashboard offline core

Shallow embedding of the two stateful components of the repository:

* `src/scripts/storage.js` — the Record Store (`storage` object) and the
  Backup Manager (`autoBackup` object), both backed by `localStorage`.
* `src/sw.js` — the service-worker Resource Cache Controller (install /
  activate / fetch handlers over the Cache API).

Modelling conventions:

* A JavaScript object is an association list `Obj := List (String × Val)`
  of field name / value pairs, read through first-occurrence lookup
  (`Obj.get`).  Property assignment (`Obj.set`) updates an existing key in
  place and otherwise appends, and object spread `\x7b...a, ...b\x7d` is
  `Obj.merge`, which keeps `a`'s key order, lets `b` win per key, and
  appends `b`'s fresh keys — exactly the JS insertion-order semantics.
* `localStorage` is modelled by `StorageState`: the `training_programs`
  slot, the backup slot and the backup timestamp slot.  A slot holding a
  serialized collection is `some l`; an absent key is `none`.  JS
  truthiness of the raw stored string coincides with `Option.isSome`
  because `JSON.stringify` of an array is always a nonempty string.
* `Date.now()` is an explicit clock argument `now : Nat`; the two
  `Date.now()` calls inside one `saveProgram` invocation are modelled by
  the same clock value.
* `JSON.parse`/`JSON.stringify` round-tripping of well-formed documents is
  modelled as the identity on structured values; an unparsable import blob
  is `none : Option ImportDoc`.
-/

namespace TrainingStorage

/-- A JavaScript value stored in a program-record field: a string or a
number (timestamps and ids are numbers or strings; no other value kinds
are needed by the verified operations). -/
inductive Val where
  | str : String → Val
  | num : Nat → Val
deriving DecidableEq, Repr

/-- A JavaScript object: ordered field list, first occurrence wins on read. -/
abbrev Obj := List (String × Val)

/-- Property read `o[k]`: `some v` if the field is present, `none` for
JavaScript `undefined`. -/
def Obj.get (o : Obj) (k : String) : Option Val :=
  (o.find? (fun e => decide (e.1 = k))).map Prod.snd

/-- Property assignment `o[k] = v`: updates the existing field in place
(keeping its position) or appends a new field, as JS assignment does. -/
def Obj.set (o : Obj) (k : String) (v : Val) : Obj :=
  if (Obj.get o k).isSome then
    o.map (fun e => if e.1 = k then (k, v) else e)
  else
    o ++ [(k, v)]

/-- Object spread `\x7b...a, ...b\x7d`: keys of `a` in order with `b`'s value
when `b` also has the key, then `b`'s keys not in `a`, in `b`'s order. -/
def Obj.merge (a b : Obj) : Obj :=
  (a.map (fun e =>
    match Obj.get b e.1 with
    | some v => (e.1, v)
    | none => e))
  ++ b.filter (fun e => (Obj.get a e.1).isNone)

/-- JavaScript `x !== undefined ? x : y` on option values (`orElse`,
written strictly). -/
def orO (x y : Option Val) : Option Val :=
  match x with
  | some v => some v
  | none => y

/-- Replace the first element satisfying `p` by its image under `f`
(the `programs[index] = ...` write after a `findIndex`). -/
def updateFirst (p : α → Bool) (f : α → α) : List α → List α
  | [] => []
  | x :: xs => if p x then f x :: xs else x :: updateFirst p f xs

/-- The three `localStorage` slots used by `storage.js`:
`training_programs`, `training_programs_backup` and
`training_programs_backup_time`. -/
structure StorageState where
  programsSlot : Option (List Obj)
  backupSlot : Option (List Obj)
  backupTime : Option Nat
deriving DecidableEq, Repr

/-- `storage.getAllPrograms()`: parse the slot, `[]` when the key is
absent (the `catch` branch is unreachable for well-formed slots). -/
def getAllPrograms (s : StorageState) : List Obj :=
  s.programsSlot.getD []

/-- `storage.getProgram(id)`: first record whose `id` field is the given
value, `none` for JS `null`. -/
def getProgram (s : StorageState) (i : Val) : Option Obj :=
  (getAllPrograms s).find? (fun p => decide (Obj.get p "id" = some i))

/-- `storage.saveProgram(program)`: look up the first record sharing the
incoming object's `id`; stamp `lastModified` (and `created` when the id is
new); then push (new id) or shallow-merge onto the record in place
(existing id); persist; return success. -/
def saveProgram (s : StorageState) (now : Nat) (program : Obj) :
    StorageState × Bool :=
  let programs := getAllPrograms s
  let pred : Obj → Bool := fun p => decide (Obj.get p "id" = Obj.get program "id")
  let already := programs.any pred
  let program1 := Obj.set program "lastModified" (Val.num now)
  let program2 :=
    if already then program1 else Obj.set program1 "created" (Val.num now)
  let programs' :=
    if already then updateFirst pred (fun q => Obj.merge q program2) programs
    else programs ++ [program2]
  ({ s with programsSlot := some programs' }, true)

/-- A sequence of `saveProgram` calls, each a `(clock, object)` pair. -/
def runSaves (s : StorageState) (saves : List (Nat × Obj)) : StorageState :=
  saves.foldl (fun st tp => (saveProgram st tp.1 tp.2).1) s

/-- The metadata stamping applied to an object inserted for a fresh id:
`lastModified` then `created`, both to the current clock. -/
def stampNew (t : Nat) (p : Obj) : Obj :=
  Obj.set (Obj.set p "lastModified" (Val.num t)) "created" (Val.num t)

/-- The record stored after a first save `(t₀, p₀)` followed by further
saves for the same id: the left fold of shallow merges of the
`lastModified`-stamped later objects over the stamped first object. -/
def mergedRecord (first : Nat × Obj) (rest : List (Nat × Obj)) : Obj :=
  rest.foldl
    (fun acc tp => Obj.merge acc (Obj.set tp.2 "lastModified" (Val.num tp.1)))
    (stampNew first.1 first.2)

/-- The saved objects of a sequence as persisted-side objects: the first
with both stamps, the rest with their `lastModified` stamp. -/
def stampedObjs (first : Nat × Obj) (rest : List (Nat × Obj)) : List Obj :=
  stampNew first.1 first.2 ::
    rest.map (fun tp => Obj.set tp.2 "lastModified" (Val.num tp.1))

/-- The `programs` field of a parsed import document, as the JS validity
check `!imported.programs || !Array.isArray(imported.programs)` sees it:
absent (`undefined`), present but not an array (any other falsy or truthy
non-array value), or an array of records. -/
inductive JsField where
  | absent : JsField
  | nonArray : JsField
  | arrayV : List Obj → JsField
deriving DecidableEq, Repr

/-- `true` exactly when `Array.isArray` accepts the field (arrays are
always truthy, so this is also the whole validity check). -/
def JsField.isArrayField : JsField → Bool
  | JsField.arrayV _ => true
  | _ => false

/-- A parsed import/export document: `version`, `exportDate` and the
`programs` field (only `programs` is inspected by import). -/
structure ImportDoc where
  version : Option String
  exportDate : Option Nat
  programs : JsField
deriving DecidableEq, Repr

/-- The structured result of `storage.importPrograms`: `success`,
`message`, and the `count` field (absent on failure). -/
structure ImportResult where
  success : Bool
  message : String
  count : Option Nat
deriving DecidableEq, Repr

/-- `storage.exportAll()`: the serialized
`\x7b version, exportDate, programs: getAllPrograms() \x7d` document. -/
def exportAll (s : StorageState) (now : Nat) : ImportDoc :=
  { version := some "1.0"
    exportDate := some now
    programs := JsField.arrayV (getAllPrograms s) }

/-- One step of the import loop: `push` the incoming record unless some
record with the same `id` is already in the working set (which grows as
records are pushed, so earlier records of the same blob also block later
duplicates). -/
def importStep (acc : List Obj) (p : Obj) : List Obj :=
  if acc.any (fun q => decide (Obj.get q "id" = Obj.get p "id")) then acc
  else acc ++ [p]

/-- `storage.importPrograms(jsonString, merge)`: `none` input models a
blob `JSON.parse` rejects (the `catch` branch); otherwise the document is
rejected unless `programs` is an array, the working set starts from the
existing collection (`merge = true`) or empty (`merge = false`), each
incoming record is inserted only when its id is absent, and the result is
persisted in one write.  The reported count is the length of the input
blob's `programs` array. -/
def importPrograms (s : StorageState) (input : Option ImportDoc)
    (merge : Bool) : StorageState × ImportResult :=
  match input with
  | none =>
    (s, { success := false, message := "Import failed", count := none })
  | some doc =>
    match doc.programs with
    | JsField.arrayV ps =>
      let programs := if merge then getAllPrograms s else []
      let programs' := ps.foldl importStep programs
      ({ s with programsSlot := some programs' },
       { success := true
         message := "Imported " ++ toString ps.length ++ " programs"
         count := some ps.length })
    | _ =>
      (s, { success := false, message := "Invalid import format", count := none })

/-- `autoBackup.createBackup()`: read the raw programs slot; when it is
truthy (present — a serialized array is a nonempty string) copy it
verbatim into the backup slot and stamp the backup time; otherwise do
nothing. -/
def createBackup (s : StorageState) (now : Nat) : StorageState :=
  match s.programsSlot with
  | some l => { s with backupSlot := some l, backupTime := some now }
  | none => s

/-- `(p.name || '')` for a field that is absent or a string (the verified
domain: `name`, `type`, `notes` are user text when present). -/
def strField (p : Obj) (k : String) : String :=
  match Obj.get p k with
  | some (Val.str s) => s
  | _ => ""

/-- JS `s.toLowerCase()`: lower-case the string character by
character. -/
def strLower (s : String) : String :=
  String.mk (s.data.map Char.toLower)

/-- `sub` is a prefix of `l` (character lists). -/
def startsWith : List Char → List Char → Bool
  | [], _ => true
  | _ :: _, [] => false
  | a :: s, b :: t => decide (a = b) && startsWith s t

/-- `sub` occurs contiguously somewhere in `hay` (character lists). -/
def containsSeq (sub : List Char) : List Char → Bool
  | [] => sub.isEmpty
  | c :: t => startsWith sub (c :: t) || containsSeq sub t

/-- JS `hay.includes(sub)`: substring containment. -/
def strIncl (hay sub : String) : Bool :=
  containsSeq sub.data hay.data

/-- `storage.searchPrograms(query)`: case-insensitive substring match of
the query against `name`, `type` and `notes`, missing fields read as the
empty string. -/
def searchPrograms (s : StorageState) (q : String) : List Obj :=
  let lowerQuery := strLower q
  (getAllPrograms s).filter (fun p =>
    strIncl (strLower (strField p "name")) lowerQuery ||
    strIncl (strLower (strField p "type")) lowerQuery ||
    strIncl (strLower (strField p "notes")) lowerQuery)

end TrainingStorage

namespace TrainingSW

open TrainingStorage (updateFirst)

/-- A request URL split into path and query string (`search`); the
`ignoreSearch` cache-match option compares paths only. -/
structure Url where
  path : String
  search : String
deriving DecidableEq, Repr

/-- The request classification the fetch handler branches on:
`event.request.mode === 'navigate'` or anything else. -/
inductive ReqMode where
  | navigate : ReqMode
  | subresource : ReqMode
deriving DecidableEq, Repr

/-- An intercepted request: URL and mode. -/
structure Req where
  url : Url
  mode : ReqMode
deriving DecidableEq, Repr

/-- A response's `type` as checked by the handler (`'basic'` means
same-origin; everything else is grouped by the other constructors). -/
inductive RType where
  | basic : RType
  | cors : RType
  | other : RType
deriving DecidableEq, Repr

/-- A network response: status, type and a body tag identifying it. -/
structure Resp where
  status : Nat
  rtype : RType
  body : Nat
deriving DecidableEq, Repr

/-- The outcome of `fetch(request)`: a response, or a rejection carrying
an error identity (so "surfaces the original failure" is expressible). -/
inductive NetResult where
  | ok : Resp → NetResult
  | err : Nat → NetResult
deriving DecidableEq, Repr

/-- One named cache: entries keyed by full URL. -/
abbrev Cache := List (Url × Resp)

/-- The CacheStorage: named cache generations in creation order. -/
abbrev CacheStore := List (String × Cache)

/-- The current cache generation's version tag (`CACHE_NAME`). -/
def CACHE_NAME : String := "training-dashboard-v6"

/-- Match inside one cache: first entry whose key equals the URL, or —
with `ignoreSearch` — whose key has the same path. -/
def cacheMatchUrl (ign : Bool) (c : Cache) (u : Url) : Option Resp :=
  (c.find? (fun e =>
    if ign then decide (e.1.path = u.path) else decide (e.1 = u))).map Prod.snd

/-- `caches.match(request, opts)`: search every cache generation in
order, returning the first hit. -/
def cachesMatch (st : CacheStore) (ign : Bool) (u : Url) : Option Resp :=
  match st with
  | [] => none
  | (_, c) :: rest =>
    match cacheMatchUrl ign c u with
    | some r => some r
    | none => cachesMatch rest ign u

/-- `cache.put(request, response)`: overwrite the entry stored under the
exact URL, or add a new one. -/
def cachePut (c : Cache) (u : Url) (r : Resp) : Cache :=
  if c.any (fun e => decide (e.1 = u)) then
    updateFirst (fun e => decide (e.1 = u)) (fun _ => (u, r)) c
  else
    c ++ [(u, r)]

/-- `caches.open(name).then(cache => cache.put(...))`: put into the named
generation, creating it when absent. -/
def openPut (st : CacheStore) (name : String) (u : Url) (r : Resp) :
    CacheStore :=
  if st.any (fun p => decide (p.1 = name)) then
    updateFirst (fun p => decide (p.1 = name))
      (fun p => (p.1, cachePut p.2 u r)) st
  else
    st ++ [(name, cachePut [] u r)]

/-- What `event.respondWith` resolves to: a response, or the propagated
rejection (identified by the error it rethrows). -/
inductive FetchOutcome where
  | resp : Resp → FetchOutcome
  | failed : Nat → FetchOutcome
deriving DecidableEq, Repr

/-- The `fetch` event handler of `src/sw.js`, as outcome plus resulting
cache store.  Navigation branch: query-insensitive `caches.match` first;
on a hit return the cached response while a background refetch stores a
status-200 `basic` response under the request's full URL into
`CACHE_NAME` (modelled synchronously); on a miss go to the network and
rethrow its failure, caching nothing.  Subresource branch: network first;
cache into `CACHE_NAME` only a status-200 `basic` response; on network
failure fall back to an exact `caches.match` and rethrow the original
error when it misses. -/
def handleFetch (net : Req → NetResult) (st : CacheStore) (req : Req) :
    FetchOutcome × CacheStore :=
  match req.mode with
  | ReqMode.navigate =>
    match cachesMatch st true req.url with
    | some cached =>
      let st' :=
        match net req with
        | NetResult.ok r =>
          if r.status = 200 ∧ r.rtype = RType.basic then
            openPut st CACHE_NAME req.url r
          else st
        | NetResult.err _ => st
      (FetchOutcome.resp cached, st')
    | none =>
      match net req with
      | NetResult.ok r => (FetchOutcome.resp r, st)
      | NetResult.err e => (FetchOutcome.failed e, st)
  | ReqMode.subresource =>
    match net req with
    | NetResult.ok r =>
      if r.status = 200 ∧ r.rtype = RType.basic then
        (FetchOutcome.resp r, openPut st CACHE_NAME req.url r)
      else
        (FetchOutcome.resp r, st)
    | NetResult.err e =>
      match cachesMatch st false req.url with
      | some cached => (FetchOutcome.resp cached, st)
      | none => (FetchOutcome.failed e, st)

/-- The `activate` handler: delete every cache generation whose name is
not `CACHE_NAME`. -/
def activateCaches (st : CacheStore) : CacheStore :=
  st.filter (fun p => decide (p.1 = CACHE_NAME))

/-- Look a generation up by name (to state unreachability of deleted
generations). -/
def lookupCache (st : CacheStore) (name : String) : Option Cache :=
  (st.find? (fun p => decide (p.1 = name))).map Prod.snd

end TrainingSW

namespace TrainingStorage

theorem orO_none (x : Option Val) : orO x none = x := by
  cases x <;> rfl

theorem get_nil (k : String) : Obj.get [] k = none := rfl

theorem get_cons (e : String × Val) (o : Obj) (k : String) :
    Obj.get (e :: o) k = if e.1 = k then some e.2 else Obj.get o k := by
  by_cases h : e.1 = k
  · simp [Obj.get, List.find?_cons_of_pos, h]
  · simp [Obj.get, List.find?_cons_of_neg, h]

theorem get_append (o₁ o₂ : Obj) (k : String) :
    Obj.get (o₁ ++ o₂) k = orO (Obj.get o₁ k) (Obj.get o₂ k) := by
  induction o₁ with
  | nil => simp [Obj.get, orO]
  | cons e o ih =>
    by_cases h : e.1 = k
    · simp [get_cons, h, orO]
    · simp [get_cons, h, ih]

theorem get_mapUpd (o : Obj) (k : String) (v : Val) :
    Obj.get (o.map (fun e => if e.1 = k then (k, v) else e)) k
      = (Obj.get o k).map (fun _ => v) := by
  induction o with
  | nil => rfl
  | cons e o ih =>
    by_cases h : e.1 = k
    · simp [get_cons, h]
    · simp [get_cons, h, ih]

theorem get_mapUpd_other (o : Obj) (k k' : String) (v : Val) (h : k' ≠ k) :
    Obj.get (o.map (fun e => if e.1 = k then (k, v) else e)) k'
      = Obj.get o k' := by
  induction o with
  | nil => rfl
  | cons e o ih =>
    by_cases he : e.1 = k
    · have hk' : ¬ (k = k') := fun hk => h hk.symm
      simp [get_cons, he, hk', ih]
    · by_cases he' : e.1 = k'
      · simp [get_cons, he, he', h]
      · simp [get_cons, he, he', ih]

theorem get_set_self (o : Obj) (k : String) (v : Val) :
    Obj.get (Obj.set o k v) k = some v := by
  unfold Obj.set
  cases h : Obj.get o k with
  | none => simp [h, get_append, get_cons, orO]
  | some w => simp [h, get_mapUpd]

theorem get_set_other (o : Obj) (k k' : String) (v : Val) (h : k' ≠ k) :
    Obj.get (Obj.set o k v) k' = Obj.get o k' := by
  unfold Obj.set
  cases hget : Obj.get o k with
  | none =>
    have hk : ¬ (k = k') := fun hk => h hk.symm
    simp [hget, get_append, get_cons, get_nil, hk, orO_none]
  | some w => simp [hget, get_mapUpd_other _ _ _ _ h]

theorem get_mergeMap (a b : Obj) (k : String) :
    Obj.get (a.map (fun e =>
        match Obj.get b e.1 with
        | some v => (e.1, v)
        | none => e)) k
      = (Obj.get a k).map (fun w => (Obj.get b k).getD w) := by
  induction a with
  | nil => rfl
  | cons e a ih =>
    by_cases h : e.1 = k
    · subst h
      cases hb : Obj.get b e.1 <;> simp [get_cons, hb]
    · cases hb : Obj.get b e.1 <;> simp [get_cons, hb, h, ih]

theorem get_mergeFilter (a b : Obj) (k : String) :
    Obj.get (b.filter (fun e => (Obj.get a e.1).isNone)) k
      = if (Obj.get a k).isNone then Obj.get b k else none := by
  induction b with
  | nil => cases h : (Obj.get a k).isNone <;> simp [Obj.get, h]
  | cons e b ih =>
    by_cases hek : e.1 = k
    · subst hek
      cases h : (Obj.get a e.1).isNone <;>
        simp [List.filter_cons, h, get_cons, ih]
    · cases h : (Obj.get a e.1).isNone <;>
        simp [List.filter_cons, h, get_cons, hek, ih]

theorem get_merge (a b : Obj) (k : String) :
    Obj.get (Obj.merge a b) k = orO (Obj.get b k) (Obj.get a k) := by
  unfold Obj.merge
  rw [get_append, get_mergeMap, get_mergeFilter]
  cases ha : Obj.get a k with
  | none =>
    simp only [Option.map_none', Option.isNone_none, if_pos]
    cases hb : Obj.get b k <;> simp [orO]
  | some w =>
    simp only [Option.map_some', Option.isNone_some, Bool.false_eq_true,
      if_false]
    cases hb : Obj.get b k <;> simp [orO]

theorem find?_updateFirst (p : α → Bool) (f : α → α) (l : List α)
    (hf : ∀ x, p x = true → p (f x) = true) :
    List.find? p (updateFirst p f l) = (List.find? p l).map f := by
  induction l with
  | nil => rfl
  | cons x xs ih =>
    by_cases hx : p x = true
    · simp [updateFirst, hx, List.find?_cons_of_pos, hf x hx]
    · have hx' : p x = false := by
        cases h : p x
        · rfl
        · exact absurd h hx
      simp [updateFirst, hx', List.find?_cons_of_neg, ih]

theorem find?_append_none (p : α → Bool) (l₁ l₂ : List α)
    (h : List.find? p l₁ = none) :
    List.find? p (l₁ ++ l₂) = List.find? p l₂ := by
  induction l₁ with
  | nil => rfl
  | cons x xs ih =>
    rw [List.find?_cons] at h
    cases hx : p x with
    | true => rw [hx] at h; exact absurd h (by simp)
    | false =>
      rw [hx] at h
      simp only [List.cons_append, List.find?_cons, hx]
      exact ih h

theorem any_of_find?_some (p : α → Bool) (l : List α) (x : α)
    (h : List.find? p l = some x) : l.any p = true := by
  have hx := List.find?_some h
  have hmem := List.mem_of_find?_eq_some h
  exact List.any_eq_true.mpr ⟨x, hmem, hx⟩

theorem any_of_find?_none (p : α → Bool) (l : List α)
    (h : List.find? p l = none) : l.any p = false := by
  rw [List.find?_eq_none] at h
  cases ha : l.any p with
  | false => rfl
  | true =>
    obtain ⟨x, hmem, hx⟩ := List.any_eq_true.mp ha
    exact absurd hx (h x hmem)

theorem get_stampNew_other (t : Nat) (p : Obj) (k : String)
    (h1 : k ≠ "lastModified") (h2 : k ≠ "created") :
    Obj.get (stampNew t p) k = Obj.get p k := by
  unfold stampNew
  rw [get_set_other _ _ _ _ h2, get_set_other _ _ _ _ h1]

theorem get_stampNew_created (t : Nat) (p : Obj) :
    Obj.get (stampNew t p) "created" = some (Val.num t) := by
  unfold stampNew
  exact get_set_self _ _ _

theorem get_stampNew_lastModified (t : Nat) (p : Obj) :
    Obj.get (stampNew t p) "lastModified" = some (Val.num t) := by
  unfold stampNew
  rw [get_set_other _ _ _ _ (by decide), get_set_self]

/-- Saving an object whose id is absent from the collection appends the
doubly stamped object, so a lookup of that id now finds it. -/
theorem getProgram_save_new (st : StorageState) (t : Nat) (p : Obj)
    (i : Val) (habs : getProgram st i = none)
    (hp : Obj.get p "id" = some i) :
    getProgram (saveProgram st t p).1 i
      = some (stampNew t p) := by
  have habs' : List.find? (fun q => decide (Obj.get q "id" = some i))
      (st.programsSlot.getD []) = none := by
    simpa [getProgram, getAllPrograms] using habs
  have hany := any_of_find?_none _ _ habs'
  unfold getProgram saveProgram getAllPrograms
  simp only [hp, hany, Bool.false_eq_true, if_false, Option.getD_some]
  rw [find?_append_none _ _ _ habs']
  have hid : Obj.get
      (Obj.set (Obj.set p "lastModified" (Val.num t)) "created" (Val.num t))
      "id" = some i := by
    rw [get_set_other _ _ _ _ (by decide), get_set_other _ _ _ _ (by decide),
      hp]
  simp [List.find?_cons_of_pos, hid, stampNew]

/-- Saving an object whose id is already present shallow-merges the
`lastModified`-stamped incoming object onto the first record with that
id, in place. -/
theorem getProgram_save_present (st : StorageState) (t : Nat) (p q : Obj)
    (i : Val) (hq : getProgram st i = some q)
    (hp : Obj.get p "id" = some i) :
    getProgram (saveProgram st t p).1 i
      = some (Obj.merge q (Obj.set p "lastModified" (Val.num t))) := by
  have hq' : List.find? (fun q' => decide (Obj.get q' "id" = some i))
      (st.programsSlot.getD []) = some q := by
    simpa [getProgram, getAllPrograms] using hq
  have hany := any_of_find?_some _ _ _ hq'
  have hstable : ∀ x : Obj,
      decide (Obj.get x "id" = some i) = true →
      decide (Obj.get
        (Obj.merge x (Obj.set p "lastModified" (Val.num t))) "id"
          = some i) = true := by
    intro x _
    have : Obj.get (Obj.merge x (Obj.set p "lastModified" (Val.num t))) "id"
        = some i := by
      rw [get_merge, get_set_other _ _ _ _ (by decide), hp]
      rfl
    simp [this]
  unfold getProgram saveProgram getAllPrograms
  simp only [hp, hany, if_true, Option.getD_some]
  rw [find?_updateFirst _ _ _ hstable, hq']
  rfl

/-- Running further saves for an id that is already stored folds the
shallow merges of the stamped incoming objects over the stored record. -/
theorem getProgram_runSaves_present (i : Val) :
    ∀ (saves : List (Nat × Obj)) (st : StorageState) (q : Obj),
    getProgram st i = some q →
    (∀ tp ∈ saves, Obj.get tp.2 "id" = some i) →
    getProgram (runSaves st saves) i
      = some (saves.foldl
          (fun acc tp =>
            Obj.merge acc (Obj.set tp.2 "lastModified" (Val.num tp.1))) q) := by
  intro saves
  induction saves with
  | nil =>
    intro st q hq _
    simpa [runSaves] using hq
  | cons tp rest ih =>
    intro st q hq hid
    have hstep := getProgram_save_present st tp.1 tp.2 q i hq
      (hid tp (by simp))
    have hrun : runSaves st (tp :: rest)
        = runSaves (saveProgram st tp.1 tp.2).1 rest := by
      simp [runSaves]
    rw [hrun, List.foldl_cons]
    exact ih _ _ hstep (fun x hx => hid x (List.mem_cons_of_mem _ hx))

/-- The record stored after a nonempty sequence of saves for a fresh id
is exactly `mergedRecord`. -/
theorem getProgram_runSaves (st : StorageState) (i : Val)
    (first : Nat × Obj) (rest : List (Nat × Obj))
    (habs : getProgram st i = none)
    (hid : ∀ tp ∈ first :: rest, Obj.get tp.2 "id" = some i) :
    getProgram (runSaves st (first :: rest)) i
      = some (mergedRecord first rest) := by
  have h0 := getProgram_save_new st first.1 first.2 i habs
    (hid first (by simp))
  have hrun : runSaves st (first :: rest)
      = runSaves (saveProgram st first.1 first.2).1 rest := by
    simp [runSaves]
  rw [hrun, mergedRecord]
  exact getProgram_runSaves_present i rest _ _ h0
    (fun x hx => hid x (List.mem_cons_of_mem _ hx))

/-- Field lookup of the merge fold is the per-key fold: the last saved
object defining a key wins. -/
theorem get_foldl_merge (k : String) :
    ∀ (l : List (Nat × Obj)) (acc : Obj),
    Obj.get (l.foldl
        (fun a tp => Obj.merge a (Obj.set tp.2 "lastModified" (Val.num tp.1)))
        acc) k
      = l.foldl
          (fun r tp =>
            orO (Obj.get (Obj.set tp.2 "lastModified" (Val.num tp.1)) k) r)
          (Obj.get acc k) := by
  intro l
  induction l with
  | nil => intro acc; rfl
  | cons tp rest ih =>
    intro acc
    rw [List.foldl_cons, List.foldl_cons, ih, get_merge]

/-- Per-key reading of `mergedRecord`: fold of "later wins" over the
stamped saved objects. -/
theorem get_mergedRecord (first : Nat × Obj) (rest : List (Nat × Obj))
    (k : String) :
    Obj.get (mergedRecord first rest) k
      = (stampedObjs first rest).foldl (fun r o => orO (Obj.get o k) r)
          none := by
  rw [mergedRecord, get_foldl_merge, stampedObjs, List.foldl_cons, orO_none,
    List.foldl_map]

/-- The fold of merges never changes `created` when no later object
carries a `created` field. -/
theorem created_foldl :
    ∀ (l : List (Nat × Obj)) (acc : Obj) (v : Val),
    Obj.get acc "created" = some v →
    (∀ tp ∈ l, Obj.get tp.2 "created" = none) →
    Obj.get (l.foldl
        (fun a tp => Obj.merge a (Obj.set tp.2 "lastModified" (Val.num tp.1)))
        acc) "created" = some v := by
  intro l
  induction l with
  | nil => intro acc v hv _; simpa using hv
  | cons tp rest ih =>
    intro acc v hv hl
    rw [List.foldl_cons]
    refine ih _ v ?_ (fun x hx => hl x (List.mem_cons_of_mem _ hx))
    rw [get_merge, get_set_other _ _ _ _ (by decide), hl tp (by simp), hv]
    rfl

/-- The fold of merges stamps `lastModified` with the clock of the last
save performed. -/
theorem lastModified_foldl :
    ∀ (l : List (Nat × Obj)) (acc : Obj) (a : Nat),
    Obj.get acc "lastModified" = some (Val.num a) →
    Obj.get (l.foldl
        (fun a' tp =>
          Obj.merge a' (Obj.set tp.2 "lastModified" (Val.num tp.1)))
        acc) "lastModified"
      = some (Val.num ((l.map Prod.fst).getLastD a)) := by
  intro l
  induction l with
  | nil => intro acc a h; simpa using h
  | cons tp rest ih =>
    intro acc a h
    rw [List.foldl_cons, List.map_cons, List.getLastD_cons]
    refine ih _ tp.1 ?_
    rw [get_merge, get_set_self]
    rfl

/-- `getLastD` over a prefix of a list is indexed lookup one position
further in the list extended on the left by the default. -/
theorem takeLast_getD :
    ∀ (k : Nat) (xs : List Nat) (a : Nat), k ≤ xs.length →
    (xs.take k).getLastD a = (a :: xs).getD k 0 := by
  intro k
  induction k with
  | zero => intro xs a _; rfl
  | succ k ih =>
    intro xs a hk
    cases xs with
    | nil => simp at hk
    | cons y ys =>
      rw [List.take_succ_cons, List.getLastD_cons,
        ih ys y (by simpa using hk)]
      rfl

/-- Indexed lookup in a pairwise-nondecreasing list of naturals is
monotone in the index. -/
theorem getD_mono_of_pairwise :
    ∀ (xs : List Nat), List.Pairwise (fun a b => a ≤ b) xs →
    ∀ m n, m ≤ n → n < xs.length → xs.getD m 0 ≤ xs.getD n 0 := by
  intro xs
  induction xs with
  | nil => intro _ m n _ hn; simp at hn
  | cons x ys ih =>
    intro hp m n hmn hn
    have hp' := List.pairwise_cons.mp hp
    cases m with
    | zero =>
      cases n with
      | zero => simp
      | succ n =>
        rw [List.getD_cons_zero, List.getD_cons_succ]
        have hlen : n < ys.length := by simpa using hn
        have hmem : ys.getD n 0 ∈ ys := by
          rw [List.getD_eq_getElem ys 0 hlen]
          exact List.getElem_mem hlen
        exact hp'.1 _ hmem
    | succ m =>
      cases n with
      | zero => omega
      | succ n =>
        rw [List.getD_cons_succ, List.getD_cons_succ]
        exact ih hp'.2 m n (by omega) (by simpa using hn)

/-- C5: for a sequence of saves sharing one id starting from a state
without that id, `getProgram` returns the fold of shallow merges of the
stamped saved objects in call order (conjunct 1); per field, the last
stamped object defining the field wins (conjunct 2); one save onto an
existing record merges the stamped incoming object onto it with incoming
fields winning per field (conjunct 3); a save of an absent id inserts the
doubly stamped object (conjunct 4). -/
theorem save_then_get_merges_all_saves
    (st : StorageState) (i : Val) (first : Nat × Obj)
    (rest : List (Nat × Obj))
    (habs : getProgram st i = none)
    (hid : ∀ tp ∈ first :: rest, Obj.get tp.2 "id" = some i) :
    getProgram (runSaves st (first :: rest)) i
      = some (mergedRecord first rest)
    ∧ (∀ k, Obj.get (mergedRecord first rest) k
        = (stampedObjs first rest).foldl (fun r o => orO (Obj.get o k) r)
            none)
    ∧ (∀ (st' : StorageState) (t : Nat) (p q : Obj),
        getProgram st' i = some q → Obj.get p "id" = some i →
        getProgram (saveProgram st' t p).1 i
          = some (Obj.merge q (Obj.set p "lastModified" (Val.num t)))
        ∧ ∀ k,
            Obj.get (Obj.merge q (Obj.set p "lastModified" (Val.num t))) k
              = orO (Obj.get (Obj.set p "lastModified" (Val.num t)) k)
                  (Obj.get q k))
    ∧ (∀ (st' : StorageState) (t : Nat) (p : Obj),
        getProgram st' i = none → Obj.get p "id" = some i →
        getProgram (saveProgram st' t p).1 i = some (stampNew t p)) := by
  refine ⟨getProgram_runSaves st i first rest habs hid,
    fun k => get_mergedRecord first rest k,
    fun st' t p q hq hp =>
      ⟨getProgram_save_present st' t p q i hq hp,
       fun k => get_merge q (Obj.set p "lastModified" (Val.num t)) k⟩,
    fun st' t p h0 hp => getProgram_save_new st' t p i h0 hp⟩

/-- Witness for C5 at a concrete two-save sequence. -/
theorem save_then_get_merges_all_saves_witness :
    getProgram
        (runSaves ⟨none, none, none⟩
          [(10, [("id", Val.num 1), ("a", Val.num 7)]),
           (20, [("id", Val.num 1), ("b", Val.num 8)])])
        (Val.num 1)
      = some (mergedRecord (10, [("id", Val.num 1), ("a", Val.num 7)])
          [(20, [("id", Val.num 1), ("b", Val.num 8)])]) :=
  (save_then_get_merges_all_saves ⟨none, none, none⟩ (Val.num 1)
    (10, [("id", Val.num 1), ("a", Val.num 7)])
    [(20, [("id", Val.num 1), ("b", Val.num 8)])]
    (by decide) (by decide)).1

/-- Counterexample to C2 as stated: with arbitrary field contents a later
save may carry its own `created` field, and the shallow merge (incoming
wins per field) overwrites the stored `created`: after a first save at
clock 10 the record's `created` is 10, but a second save passing
`created = 999` changes it to 999. -/
theorem created_not_immutable_counterexample :
    (getProgram (runSaves ⟨none, none, none⟩ [(10, [("id", Val.num 1)])])
        (Val.num 1)).bind (fun r => Obj.get r "created")
      = some (Val.num 10)
    ∧ (getProgram (runSaves ⟨none, none, none⟩
          [(10, [("id", Val.num 1)]),
           (20, [("id", Val.num 1), ("created", Val.num 999)])])
        (Val.num 1)).bind (fun r => Obj.get r "created")
      = some (Val.num 999) := by
  decide

/-- C2 as amended: provided no later saved object itself carries a
`created` field, `created` is stamped by the first save and never changes
(conjunct 1); `lastModified` is stamped on every save with that save's
clock (conjunct 2); and with a non-decreasing clock `lastModified` is
monotonically non-decreasing across the sequence (conjunct 3). -/
theorem created_once_lastModified_monotone
    (st : StorageState) (i : Val) (first : Nat × Obj)
    (rest : List (Nat × Obj))
    (habs : getProgram st i = none)
    (hid : ∀ tp ∈ first :: rest, Obj.get tp.2 "id" = some i)
    (hnoc : ∀ tp ∈ rest, Obj.get tp.2 "created" = none)
    (hclock : List.Pairwise (fun a b => a ≤ b)
      ((first :: rest).map Prod.fst)) :
    (∀ n, 1 ≤ n → n ≤ rest.length + 1 →
      (getProgram (runSaves st ((first :: rest).take n)) i).bind
        (fun r => Obj.get r "created") = some (Val.num first.1))
    ∧ (∀ n, 1 ≤ n → n ≤ rest.length + 1 →
      (getProgram (runSaves st ((first :: rest).take n)) i).bind
        (fun r => Obj.get r "lastModified")
        = some (Val.num (((first :: rest).map Prod.fst).getD (n - 1) 0)))
    ∧ (∀ m n, 1 ≤ m → m ≤ n → n ≤ rest.length + 1 →
      ∃ a b : Nat,
        (getProgram (runSaves st ((first :: rest).take m)) i).bind
          (fun r => Obj.get r "lastModified") = some (Val.num a)
        ∧ (getProgram (runSaves st ((first :: rest).take n)) i).bind
          (fun r => Obj.get r "lastModified") = some (Val.num b)
        ∧ a ≤ b) := by
  have hbase : ∀ n, 1 ≤ n → n ≤ rest.length + 1 →
      getProgram (runSaves st ((first :: rest).take n)) i
        = some (mergedRecord first (rest.take (n - 1))) := by
    intro n h1 _
    obtain ⟨m, rfl⟩ : ∃ m, n = m + 1 :=
      ⟨n - 1, (Nat.succ_pred_eq_of_pos h1).symm⟩
    rw [List.take_succ_cons]
    refine getProgram_runSaves st i first (rest.take m) habs ?_
    intro tp htp
    rcases List.mem_cons.mp htp with h | h
    · exact hid tp (h ▸ List.mem_cons_self _ _)
    · exact hid tp (List.mem_cons_of_mem _ (List.take_subset m rest h))
  have hcreated : ∀ n, 1 ≤ n → n ≤ rest.length + 1 →
      (getProgram (runSaves st ((first :: rest).take n)) i).bind
        (fun r => Obj.get r "created") = some (Val.num first.1) := by
    intro n h1 h2
    rw [hbase n h1 h2, Option.some_bind, mergedRecord]
    exact created_foldl _ _ _ (get_stampNew_created first.1 first.2)
      (fun tp htp => hnoc tp (List.take_subset _ rest htp))
  have hlm : ∀ n, 1 ≤ n → n ≤ rest.length + 1 →
      (getProgram (runSaves st ((first :: rest).take n)) i).bind
        (fun r => Obj.get r "lastModified")
        = some (Val.num (((first :: rest).map Prod.fst).getD (n - 1) 0)) := by
    intro n h1 h2
    rw [hbase n h1 h2, Option.some_bind, mergedRecord,
      lastModified_foldl _ _ first.1
        (get_stampNew_lastModified first.1 first.2)]
    have hlen : n - 1 ≤ (rest.map Prod.fst).length := by
      simp only [List.length_map]
      omega
    rw [List.map_take, takeLast_getD _ _ _ hlen, List.map_cons]
  refine ⟨hcreated, hlm, ?_⟩
  intro m n h1 hmn h2
  refine ⟨((first :: rest).map Prod.fst).getD (m - 1) 0,
    ((first :: rest).map Prod.fst).getD (n - 1) 0,
    hlm m h1 (le_trans hmn h2), hlm n (le_trans h1 hmn) h2, ?_⟩
  refine getD_mono_of_pairwise _ hclock (m - 1) (n - 1) (by omega) ?_
  simp only [List.map_cons, List.length_cons, List.length_map]
  omega

/-- Witness for the amended C2 at a concrete two-save sequence. -/
theorem created_once_lastModified_monotone_witness :
    (getProgram
        (runSaves ⟨none, none, none⟩
          ([(10, [("id", Val.num 1)]),
            (20, [("id", Val.num 1), ("x", Val.num 3)])].take 2))
        (Val.num 1)).bind (fun r => Obj.get r "created")
      = some (Val.num 10) :=
  (created_once_lastModified_monotone ⟨none, none, none⟩ (Val.num 1)
    (10, [("id", Val.num 1)])
    [(20, [("id", Val.num 1), ("x", Val.num 3)])]
    (by decide) (by decide) (by decide) (by decide)).1 2
    (by decide) (by decide)

/-- C3: importing with `merge = true` into a store holding `A`, from a
blob holding `A'` (same id as `A`, different content) and a fresh-id `B`,
persists exactly `[A, B]` — `A` unchanged, `B` appended — and succeeds. -/
theorem import_merge_never_overwrites
    (st : StorageState) (A A' B : Obj)
    (hst : getAllPrograms st = [A])
    (hidShare : Obj.get A' "id" = Obj.get A "id")
    (hcontent : A' ≠ A)
    (hB : Obj.get B "id" ≠ Obj.get A "id")
    (v : Option String) (d : Option Nat) :
    (importPrograms st (some ⟨v, d, JsField.arrayV [A', B]⟩) true).1.programsSlot
      = some [A, B]
    ∧ (importPrograms st (some ⟨v, d, JsField.arrayV [A', B]⟩) true).2.success
      = true := by
  have h1 : ([A].any (fun q => decide (Obj.get q "id" = Obj.get A' "id")))
      = true := by
    simp [hidShare]
  have h2 : ([A].any (fun q => decide (Obj.get q "id" = Obj.get B "id")))
      = false := by
    simp only [List.any_cons, List.any_nil, Bool.or_false,
      decide_eq_false_iff_not]
    exact fun h => hB h.symm
  constructor
  · simp [importPrograms, hst, importStep, h1, h2]
  · simp [importPrograms, hst, importStep, h1, h2]

/-- Witness for C3 at concrete records. -/
theorem import_merge_never_overwrites_witness :
    (importPrograms ⟨some [[("id", Val.num 1), ("x", Val.num 1)]], none, none⟩
        (some ⟨some "1.0", some 4,
          JsField.arrayV [[("id", Val.num 1), ("x", Val.num 2)],
            [("id", Val.num 2)]]⟩) true).1.programsSlot
      = some [[("id", Val.num 1), ("x", Val.num 1)], [("id", Val.num 2)]]
    ∧ (importPrograms ⟨some [[("id", Val.num 1), ("x", Val.num 1)]], none, none⟩
        (some ⟨some "1.0", some 4,
          JsField.arrayV [[("id", Val.num 1), ("x", Val.num 2)],
            [("id", Val.num 2)]]⟩) true).2.success = true :=
  import_merge_never_overwrites
    ⟨some [[("id", Val.num 1), ("x", Val.num 1)]], none, none⟩
    [("id", Val.num 1), ("x", Val.num 1)]
    [("id", Val.num 1), ("x", Val.num 2)]
    [("id", Val.num 2)]
    (by decide) (by decide) (by decide) (by decide)
    (some "1.0") (some 4)

/-- The import loop appends every incoming record whose id clashes with
nothing: with pairwise-distinct incoming ids, all disjoint from the
working set, the fold is plain concatenation. -/
theorem foldl_importStep_disjoint :
    ∀ (l : List Obj) (acc : List Obj),
    (∀ p ∈ l,
      (acc.any (fun q => decide (Obj.get q "id" = Obj.get p "id"))) = false) →
    List.Pairwise (fun p q => Obj.get p "id" ≠ Obj.get q "id") l →
    l.foldl importStep acc = acc ++ l := by
  intro l
  induction l with
  | nil => intro acc _ _; simp
  | cons p ps ih =>
    intro acc hdisj hnd
    have hstep : importStep acc p = acc ++ [p] := by
      unfold importStep
      rw [hdisj p (List.mem_cons_self _ _)]
      simp
    rw [List.foldl_cons, hstep, ih (acc ++ [p]) ?_
      (List.pairwise_cons.mp hnd).2]
    · simp
    · intro x hx
      rw [List.any_append]
      have hx1 := hdisj x (List.mem_cons_of_mem _ hx)
      have hx2 : Obj.get p "id" ≠ Obj.get x "id" :=
        (List.pairwise_cons.mp hnd).1 x hx
      simp only [hx1, List.any_cons, List.any_nil, Bool.or_false,
        Bool.false_or, decide_eq_false_iff_not]
      exact hx2

/-- C6: importing the export of the current store with `merge = false`
succeeds and persists a collection equal (hence set-equal) to the
collection at the moment of export, provided the store invariant of
pairwise-distinct record ids holds. -/
theorem export_import_round_trip
    (st : StorageState) (now : Nat)
    (hids : List.Pairwise (fun p q => Obj.get p "id" ≠ Obj.get q "id")
      (getAllPrograms st)) :
    getAllPrograms (importPrograms st (some (exportAll st now)) false).1
      = getAllPrograms st
    ∧ (importPrograms st (some (exportAll st now)) false).2.success = true := by
  have hfold := foldl_importStep_disjoint (getAllPrograms st) []
    (by intro p _; rfl) hids
  constructor
  · have hfold' : List.foldl importStep [] (st.programsSlot.getD [])
        = st.programsSlot.getD [] := by
      simpa [getAllPrograms] using hfold
    simp [importPrograms, exportAll, getAllPrograms, hfold']
  · simp [importPrograms, exportAll]

/-- Witness for C6 at a concrete two-record store. -/
theorem export_import_round_trip_witness :
    getAllPrograms (importPrograms
        ⟨some [[("id", Val.num 1)], [("id", Val.num 2)]], none, none⟩
        (some (exportAll
          ⟨some [[("id", Val.num 1)], [("id", Val.num 2)]], none, none⟩ 9))
        false).1
      = getAllPrograms
          ⟨some [[("id", Val.num 1)], [("id", Val.num 2)]], none, none⟩ :=
  (export_import_round_trip
    ⟨some [[("id", Val.num 1)], [("id", Val.num 2)]], none, none⟩ 9
    (by decide)).1

/-- C7: when the parsed import document's `programs` field is absent or
not an array, `importPrograms` returns the structured failure result with
its human-readable message and leaves the whole storage state unchanged. -/
theorem import_rejects_malformed
    (st : StorageState) (doc : ImportDoc) (m : Bool)
    (h : doc.programs.isArrayField = false) :
    importPrograms st (some doc) m
      = (st, { success := false, message := "Invalid import format",
               count := none }) := by
  cases hdoc : doc.programs with
  | absent => simp [importPrograms, hdoc]
  | nonArray => simp [importPrograms, hdoc]
  | arrayV ps =>
    rw [hdoc] at h
    simp [JsField.isArrayField] at h

/-- Witness for C7 at a concrete store and document. -/
theorem import_rejects_malformed_witness :
    importPrograms ⟨some [[("id", Val.num 1)]], none, none⟩
        (some ⟨some "1.0", some 3, JsField.absent⟩) true
      = (⟨some [[("id", Val.num 1)]], none, none⟩,
         { success := false, message := "Invalid import format",
           count := none }) :=
  import_rejects_malformed ⟨some [[("id", Val.num 1)]], none, none⟩
    ⟨some "1.0", some 3, JsField.absent⟩ true (by decide)

/-- Counterexample to C9 as stated: with the persisted collection present
but empty (the slot holds the serialized empty collection, e.g. after
deleting the last record), `createBackup` is not a no-op — it copies the
empty collection into the backup slot and stamps the timestamp. -/
theorem backup_on_empty_collection_counterexample :
    getAllPrograms ⟨some [], none, none⟩ = []
    ∧ createBackup ⟨some [], none, none⟩ 100 ≠ ⟨some [], none, none⟩
    ∧ (createBackup ⟨some [], none, none⟩ 100).backupSlot = some []
    ∧ (createBackup ⟨some [], none, none⟩ 100).backupTime = some 100 := by
  decide

/-- C9 as amended: `createBackup` is a silent no-op exactly when the
underlying programs slot is absent (the raw stored value is falsy); in
every other case — even for a present-but-empty collection — it copies
the serialized collection verbatim into the single backup slot and
records the current time as the backup timestamp. -/
theorem createBackup_copies_unless_slot_absent
    (s : StorageState) (now : Nat) :
    (s.programsSlot = none → createBackup s now = s)
    ∧ (∀ l, s.programsSlot = some l →
        createBackup s now
          = { s with backupSlot := some l, backupTime := some now }) := by
  constructor
  · intro h
    simp [createBackup, h]
  · intro l h
    simp [createBackup, h]

/-- Witness for the amended C9 at a concrete one-record store. -/
theorem createBackup_copies_unless_slot_absent_witness :
    createBackup ⟨some [[("id", Val.num 1)]], none, none⟩ 5
      = ⟨some [[("id", Val.num 1)]], some [[("id", Val.num 1)]], some 5⟩ :=
  (createBackup_copies_unless_slot_absent
    ⟨some [[("id", Val.num 1)]], none, none⟩ 5).2 _ rfl

/-- `name`/`type`/`notes` is absent or holds a string — the domain on
which `(p.name || '').toLowerCase()` is the modelled total function. -/
def isStrOrAbsent (p : Obj) (k : String) : Bool :=
  match Obj.get p k with
  | none => true
  | some (Val.str _) => true
  | some (Val.num _) => false

/-- C10: with the searched fields absent-or-string, searching with the
empty query returns the entire collection — the lowercased empty query is
a substring of every (possibly defaulted-to-empty) field value. -/
theorem search_empty_query_returns_all
    (s : StorageState)
    (hdom : ∀ p ∈ getAllPrograms s,
      isStrOrAbsent p "name" = true ∧ isStrOrAbsent p "type" = true
        ∧ isStrOrAbsent p "notes" = true) :
    searchPrograms s "" = getAllPrograms s := by
  unfold searchPrograms
  have hincl : ∀ hay : String, strIncl hay (strLower "") = true := by
    intro hay
    unfold strIncl
    have h0 : (strLower "").data = [] := rfl
    rw [h0]
    cases hd : hay.data with
    | nil => rfl
    | cons c t => simp [containsSeq, startsWith]
  apply List.filter_eq_self.mpr
  intro p _
  simp [hincl]

/-- Witness for C10 at a concrete store. -/
theorem search_empty_query_returns_all_witness :
    searchPrograms
        ⟨some [[("id", Val.num 1), ("name", Val.str "Week A")],
          [("id", Val.num 2)]], none, none⟩ ""
      = getAllPrograms
          ⟨some [[("id", Val.num 1), ("name", Val.str "Week A")],
            [("id", Val.num 2)]], none, none⟩ :=
  search_empty_query_returns_all
    ⟨some [[("id", Val.num 1), ("name", Val.str "Week A")],
      [("id", Val.num 2)]], none, none⟩ (by decide)

end TrainingStorage

namespace TrainingSW

/-- Counterexample to C1 as stated: for a navigation request with a
cached entry AND a live network answer (status 200, `basic`), a
network-first handler would return the live response (body 2), but the
handler returns the cached one (body 1) — the navigation branch is
cache-first, not network-first. -/
theorem navigation_not_network_first_counterexample :
    (handleFetch (fun _ => NetResult.ok ⟨200, RType.basic, 2⟩)
        [(CACHE_NAME, [(⟨"/index.html", ""⟩, ⟨200, RType.basic, 1⟩)])]
        ⟨⟨"/index.html", ""⟩, ReqMode.navigate⟩).1
      = FetchOutcome.resp ⟨200, RType.basic, 1⟩
    ∧ (⟨200, RType.basic, 1⟩ : Resp) ≠ ⟨200, RType.basic, 2⟩ := by
  decide

/-- C1 as amended: the navigation branch is cache-first.  On a
query-string-insensitive cache hit it returns the cached response while
the background refetch stores a status-200 `basic` network response into
the current generation under the request's full URL (and leaves the
store unchanged on any other network outcome); on a cache miss it
returns the live network response without caching it, and surfaces the
network failure when the network also fails. -/
theorem navigation_cache_first
    (net : Req → NetResult) (st : CacheStore) (req : Req)
    (hmode : req.mode = ReqMode.navigate) :
    (∀ cached, cachesMatch st true req.url = some cached →
      (handleFetch net st req).1 = FetchOutcome.resp cached
      ∧ (∀ r, net req = NetResult.ok r →
          ((r.status = 200 ∧ r.rtype = RType.basic) →
            (handleFetch net st req).2 = openPut st CACHE_NAME req.url r)
          ∧ (¬ (r.status = 200 ∧ r.rtype = RType.basic) →
            (handleFetch net st req).2 = st))
      ∧ (∀ e, net req = NetResult.err e → (handleFetch net st req).2 = st))
    ∧ (cachesMatch st true req.url = none →
        (∀ r, net req = NetResult.ok r →
          handleFetch net st req = (FetchOutcome.resp r, st))
        ∧ (∀ e, net req = NetResult.err e →
          handleFetch net st req = (FetchOutcome.failed e, st))) := by
  constructor
  · intro cached hcache
    refine ⟨?_, ?_, ?_⟩
    · simp [handleFetch, hmode, hcache]
    · intro r hnet
      constructor
      · intro hvalid
        simp [handleFetch, hmode, hcache, hnet, hvalid]
      · intro hvalid
        simp [handleFetch, hmode, hcache, hnet, hvalid]
    · intro e hnet
      simp [handleFetch, hmode, hcache, hnet]
  · intro hcache
    constructor
    · intro r hnet
      simp [handleFetch, hmode, hcache, hnet]
    · intro e hnet
      simp [handleFetch, hmode, hcache, hnet]

/-- Witness for the amended C1: cache hit with a live network answer
returns the cached body and refreshes the stored entry. -/
theorem navigation_cache_first_witness :
    (handleFetch (fun _ => NetResult.ok ⟨200, RType.basic, 5⟩)
        [(CACHE_NAME, [(⟨"/history.html", ""⟩, ⟨200, RType.basic, 4⟩)])]
        ⟨⟨"/history.html", "?tab=2"⟩, ReqMode.navigate⟩).1
      = FetchOutcome.resp ⟨200, RType.basic, 4⟩ :=
  ((navigation_cache_first (fun _ => NetResult.ok ⟨200, RType.basic, 5⟩)
    [(CACHE_NAME, [(⟨"/history.html", ""⟩, ⟨200, RType.basic, 4⟩)])]
    ⟨⟨"/history.html", "?tab=2"⟩, ReqMode.navigate⟩ rfl).1
    ⟨200, RType.basic, 4⟩ (by decide)).1

/-- C4: the subresource branch is network-first with the strict cache
condition: a network response is stored into the current generation
exactly when its status is 200 and its type is `basic`, and is returned
uncached otherwise; on network failure the fallback is an exact-match
lookup (query string included), returning the cached entry on a hit and
surfacing the original network error on a miss, always leaving the store
unchanged. -/
theorem subresource_network_first
    (net : Req → NetResult) (st : CacheStore) (req : Req)
    (hmode : req.mode = ReqMode.subresource) :
    (∀ r, net req = NetResult.ok r →
      ((r.status = 200 ∧ r.rtype = RType.basic) →
        handleFetch net st req
          = (FetchOutcome.resp r, openPut st CACHE_NAME req.url r))
      ∧ (¬ (r.status = 200 ∧ r.rtype = RType.basic) →
        handleFetch net st req = (FetchOutcome.resp r, st)))
    ∧ (∀ e, net req = NetResult.err e →
      (∀ cached, cachesMatch st false req.url = some cached →
        handleFetch net st req = (FetchOutcome.resp cached, st))
      ∧ (cachesMatch st false req.url = none →
        handleFetch net st req = (FetchOutcome.failed e, st))) := by
  constructor
  · intro r hnet
    constructor
    · intro hvalid
      simp [handleFetch, hmode, hnet, hvalid]
    · intro hvalid
      simp [handleFetch, hmode, hnet, hvalid]
  · intro e hnet
    constructor
    · intro cached hcache
      simp [handleFetch, hmode, hnet, hcache]
    · intro hcache
      simp [handleFetch, hmode, hnet, hcache]

/-- Witness for C4, the claim's own scenario: offline, a cached
`/app.js` answers the exact request for `/app.js`, while `/app.js?v=2`
with no exact cached entry surfaces the network failure instead of
falling back to `/app.js`. -/
theorem subresource_network_first_witness :
    handleFetch (fun _ => NetResult.err 7)
        [(CACHE_NAME, [(⟨"/app.js", ""⟩, ⟨200, RType.basic, 3⟩)])]
        ⟨⟨"/app.js", ""⟩, ReqMode.subresource⟩
      = (FetchOutcome.resp ⟨200, RType.basic, 3⟩,
         [(CACHE_NAME, [(⟨"/app.js", ""⟩, ⟨200, RType.basic, 3⟩)])])
    ∧ handleFetch (fun _ => NetResult.err 7)
        [(CACHE_NAME, [(⟨"/app.js", ""⟩, ⟨200, RType.basic, 3⟩)])]
        ⟨⟨"/app.js", "?v=2"⟩, ReqMode.subresource⟩
      = (FetchOutcome.failed 7,
         [(CACHE_NAME, [(⟨"/app.js", ""⟩, ⟨200, RType.basic, 3⟩)])]) :=
  ⟨((subresource_network_first (fun _ => NetResult.err 7)
      [(CACHE_NAME, [(⟨"/app.js", ""⟩, ⟨200, RType.basic, 3⟩)])]
      ⟨⟨"/app.js", ""⟩, ReqMode.subresource⟩ rfl).2 7 rfl).1
      ⟨200, RType.basic, 3⟩ (by decide),
   ((subresource_network_first (fun _ => NetResult.err 7)
      [(CACHE_NAME, [(⟨"/app.js", ""⟩, ⟨200, RType.basic, 3⟩)])]
      ⟨⟨"/app.js", "?v=2"⟩, ReqMode.subresource⟩ rfl).2 7 rfl).2
      (by decide)⟩

/-- C8: after activation every surviving generation carries the current
version tag, any other generation name resolves to nothing (so its
entries are unreachable), and the current generation is untouched. -/
theorem activate_deletes_superseded (st : CacheStore) :
    (∀ p ∈ activateCaches st, p.1 = CACHE_NAME)
    ∧ (∀ name, name ≠ CACHE_NAME →
        lookupCache (activateCaches st) name = none)
    ∧ lookupCache (activateCaches st) CACHE_NAME
        = lookupCache st CACHE_NAME := by
  refine ⟨?_, ?_, ?_⟩
  · intro p hp
    have := List.of_mem_filter hp
    simpa using this
  · intro name hname
    have hall : ∀ x ∈ activateCaches st,
        ¬ (decide (x.1 = name) = true) := by
      intro x hx
      have hx1 : x.1 = CACHE_NAME := by
        have := List.of_mem_filter hx
        simpa using this
      simp [hx1]
      exact fun h => hname h.symm
    unfold lookupCache
    rw [List.find?_eq_none.mpr hall]
    rfl
  · unfold lookupCache activateCaches
    induction st with
    | nil => rfl
    | cons p ps ih =>
      by_cases h : p.1 = CACHE_NAME
      · simp [List.filter_cons, h, List.find?_cons_of_pos]
      · simp [List.filter_cons, h, List.find?_cons_of_neg, ih]

/-- Witness for C8: a superseded generation name resolves to nothing
after activation. -/
theorem activate_deletes_superseded_witness :
    lookupCache
        (activateCaches
          [("training-dashboard-v5",
            [(⟨"/index.html", ""⟩, ⟨200, RType.basic, 1⟩)]),
           (CACHE_NAME, [])])
        "training-dashboard-v5" = none :=
  (activate_deletes_superseded
    [("training-dashboard-v5",
      [(⟨"/index.html", ""⟩, ⟨200, RType.basic, 1⟩)]),
     (CACHE_NAME, [])]).2.1 "training-dashboard-v5" (by decide)

end TrainingSW
